/-
  Verification development for the SNN branch predictor
  (src/src/cpu/pred/snn.cc of shinezyy/gem5).

  The C++ core is shallowly embedded: machine integers become `Int`/`Nat`
  (weights are produced by saturating arithmetic and never overflow their
  `int32_t` carriers, so plain `Int` is faithful), `boost::dynamic_bitset`
  becomes `List Bool` with bit `i` at list position `i`, fixed length, and
  `std::vector` becomes `List` with total accessors (`getD`); an
  out-of-range C++ access (undefined behaviour) is totalized as a no-op /
  default read, and the in-range theorems below identify exactly when the
  source performs such an access.
-/
import Mathlib

namespace SNN

/-- Modelled from the spec: `SignedSatCounter` is declared outside the
provided source (snn.hh / gem5 base library); per spec §3/§4.1 a counter of
`bits` bits clamps every stored value into `[-2^(bits-1), 2^(bits-1)-1]`. -/
def clampS (bits : Nat) (v : Int) : Int :=
  max (-((2 : Int) ^ (bits - 1))) (min ((2 : Int) ^ (bits - 1) - 1) v)

/-- Modelled from the spec: `SignedSatCounter::add` adds then clamps;
`increment`/`decrement` are `add 1` / `add (-1)`. -/
def satAdd (bits : Nat) (c d : Int) : Int := clampS bits (c + d)

/-- snn.cc:274 `b2s`: `(taken << 1) - 1`, i.e. `1 -> 1`, `0 -> -1`. -/
def b2s (b : Bool) : Int := if b then 1 else -1

/-- Left-to-right sum of `f 0 + f 1 + ... + f (n-1)`, mirroring the
accumulation order of the C++ `for` loops. -/
def sumRange (f : Nat → Int) : Nat → Int
  | 0 => 0
  | n + 1 => sumRange f n + f n

/-- `tabulate n f = [f 0, ..., f (n-1)]`; used to embed loops that write
every cell of a fixed-size vector. -/
def tabulate {α : Type} : Nat → (Nat → α) → List α
  | 0, _ => []
  | n + 1, f => f 0 :: tabulate n (fun i => f (i + 1))

/-- In-place update of one vector cell (`v[i] = f v[i]`); no-op out of range,
matching the totalization convention stated above. -/
def listModify {α : Type} : List α → Nat → (α → α) → List α
  | [], _, _ => []
  | a :: t, 0, f => f a :: t
  | a :: t, n + 1, f => a :: listModify t n f

/-- The construction-time parameters consumed by `SNN::SNN` / `Neuron::Neuron`
(snn.cc:57-73, 256-272). -/
structure SNNParams where
  tableSize : Nat
  denseGlobalHistoryLen : Nat
  sparseGHSegLen : Nat
  sparseGHNSegs : Nat
  localHistoryLen : Nat
  ctrBits : Nat
  activeTerm : Nat
  numThreads : Nat
deriving DecidableEq

/-- One sparse history segment: `{valid, ptr, weight}` (weight's counter
value). -/
structure SparseSeg where
  valid : Bool
  ptr : Nat
  weight : Int
deriving DecidableEq

def segDflt : SparseSeg := ⟨false, 0, 0⟩

/-- The mutable state of `SNN::Neuron` (counter values stored directly). -/
structure Neuron where
  localHistory : List Bool
  denseWeights : List Int
  activeStart : Nat
  activeWeights : List Int
  activeTime : Nat
  theta : Int
  sparseSegs : List SparseSeg
deriving DecidableEq

/-- `SNN::Neuron::Neuron` (snn.cc:256-272).  The C++ initializes `theta` by
truncating the double `1.93*(denseGHLen+sparseGHSegLen) + 14.0`; this is
embedded as the exact rational truncation `(193*(d+s) + 1400) / 100`. -/
def Neuron.init (p : SNNParams) : Neuron :=
  { localHistory := tabulate p.localHistoryLen (fun _ => false)
    denseWeights := tabulate (p.denseGlobalHistoryLen + 1) (fun _ => 0)
    activeStart := p.denseGlobalHistoryLen
    activeWeights := tabulate p.sparseGHSegLen (fun _ => 0)
    activeTime := 0
    theta := ((193 * (p.denseGlobalHistoryLen + p.sparseGHSegLen) + 1400) / 100 : Nat)
    sparseSegs := tabulate p.sparseGHNSegs (fun _ => segDflt) }

/-- `SNN::Neuron::predict` (snn.cc:159-179).  The C++ method reads weights and
history bits and writes no member, so it is embedded as a pure function. -/
def Neuron.predict (p : SNNParams) (n : Neuron) (ghr : List Bool) : Int :=
  n.denseWeights.getD p.denseGlobalHistoryLen 0
    + sumRange (fun i => b2s (ghr.getD i false) * n.denseWeights.getD i 0)
        p.denseGlobalHistoryLen
    + sumRange (fun i => b2s (ghr.getD (n.activeStart + i) false) * n.activeWeights.getD i 0)
        p.sparseGHSegLen
    + sumRange (fun i => b2s (ghr.getD (n.sparseSegs.getD i segDflt).ptr false)
        * (n.sparseSegs.getD i segDflt).weight) p.sparseGHNSegs

/-- The prediction score exactly as the spec (§4.3) words it: the sparse sum
ranges over the VALID segments only (invalid segments contribute zero). -/
def Neuron.predictSpecFormula (p : SNNParams) (n : Neuron) (ghr : List Bool) : Int :=
  n.denseWeights.getD p.denseGlobalHistoryLen 0
    + sumRange (fun i => b2s (ghr.getD i false) * n.denseWeights.getD i 0)
        p.denseGlobalHistoryLen
    + sumRange (fun i => b2s (ghr.getD (n.activeStart + i) false) * n.activeWeights.getD i 0)
        p.sparseGHSegLen
    + sumRange (fun i =>
        if (n.sparseSegs.getD i segDflt).valid then
          b2s (ghr.getD (n.sparseSegs.getD i segDflt).ptr false)
            * (n.sparseSegs.getD i segDflt).weight
        else 0) p.sparseGHNSegs

/-- snn.cc:219-227: index of the first active weight of maximal absolute
value (strict `>` in the scan, so the lowest index wins ties), paired with
that maximal absolute value. -/
def argmaxAbs (ws : Nat → Int) (len : Nat) : Nat × Nat :=
  (List.range len).foldl
    (fun acc i => if (ws i).natAbs > acc.2 then (i, (ws i).natAbs) else acc)
    (0, (ws 0).natAbs)

/-- snn.cc:216: a `fit` call whose `activeTime` reaches `activeTerm` runs the
reselection block. -/
def fitReselects (p : SNNParams) (n : Neuron) : Bool :=
  decide (n.activeTime + 1 ≥ p.activeTerm)

/-- snn.cc:218: the sparse-segment index accessed during reselection. -/
def reselectSegIdx (p : SNNParams) (n : Neuron) : Nat :=
  n.activeStart / p.sparseGHSegLen

/-- `SNN::Neuron::fit` (snn.cc:181-254).  `predTaken`/`predVal` are the token
fields read by the skip rule; `ghr` is the token's global-history snapshot. -/
def Neuron.fit (p : SNNParams) (ghr : List Bool) (predTaken : Bool) (predVal : Int)
    (taken : Bool) (n : Neuron) : Neuron :=
  if taken = predTaken ∧ (predVal.natAbs : Int) > n.theta then n
  else
    let dense1 := tabulate (p.denseGlobalHistoryLen + 1) (fun i =>
      if i = p.denseGlobalHistoryLen then
        satAdd p.ctrBits (n.denseWeights.getD i 0) (if taken then 1 else -1)
      else
        satAdd p.ctrBits (n.denseWeights.getD i 0) (b2s taken * b2s (ghr.getD i false)))
    let sparse1 := tabulate p.sparseGHNSegs (fun i =>
      let s := n.sparseSegs.getD i segDflt
      { s with weight :=
                 satAdd p.ctrBits s.weight
                   (b2s taken * b2s (ghr.getD s.ptr false)
                     * (if s.valid then 1 else 0)) })
    let active1 := tabulate p.sparseGHSegLen (fun i =>
      satAdd p.ctrBits (n.activeWeights.getD i 0)
        (b2s taken * b2s (ghr.getD (n.activeStart + i) false)))
    if fitReselects p n then
      let segIdx := reselectSegIdx p n
      let mi := (argmaxAbs (fun i => active1.getD i 0) p.sparseGHSegLen).1
      let sparse2 := listModify sparse1 segIdx (fun s =>
        if s.valid = false then
          { valid := true, ptr := mi,
            weight := satAdd p.ctrBits s.weight (active1.getD mi 0) }
        else if s.ptr = mi then s
        else { s with ptr := mi, weight := satAdd p.ctrBits 0 (active1.getD mi 0) })
      let theta1 := if (sparse1.getD segIdx segDflt).valid = false then n.theta + 2
        else n.theta
      { n with denseWeights := dense1
               sparseSegs := sparse2
               activeWeights := tabulate p.sparseGHSegLen (fun _ => 0)
               activeTime := 0
               theta := theta1
               activeStart :=
                 if n.activeStart / p.sparseGHSegLen ≠ p.sparseGHNSegs - 1 then
                   n.activeStart + p.sparseGHSegLen
                 else p.denseGlobalHistoryLen }
    else
      { n with denseWeights := dense1
               sparseSegs := sparse1
               activeWeights := active1
               activeTime := n.activeTime + 1 }

/-- The prediction token `SNN::BPHistory` (allocated in `lookup` /
`uncondBranch`); `tableIndex = none` embeds `InvalidTableIndex`. -/
structure BPHistory where
  globalHistory : List Bool
  localHistory : List Bool
  tableIndex : Option Nat
  predTaken : Bool
  predictionID : Nat
  predictionValue : Int
deriving DecidableEq

/-- Whole-predictor state: per-thread global history registers, the neuron
table, and the running prediction identifier. -/
structure SNNState where
  globalHistory : List (List Bool)
  table : List Neuron
  predictionID : Nat
deriving DecidableEq

/-- `SNN::SNN` (snn.cc:57-73): global history length is
`denseGlobalHistoryLen + sparseGHNSegs * sparseGHSegLen`. -/
def initState (p : SNNParams) : SNNState :=
  { globalHistory := tabulate p.numThreads (fun _ =>
      tabulate (p.denseGlobalHistoryLen + p.sparseGHNSegs * p.sparseGHSegLen)
        (fun _ => false))
    table := tabulate p.tableSize (fun _ => Neuron.init p)
    predictionID := 0 }

/-- `SNN::computeIndex` (snn.cc:48-50): `(addr >> 2) % tableSize`. -/
def computeIndex (p : SNNParams) (addr : Nat) : Nat :=
  (addr / 4) % p.tableSize

/-- `SNN::updateGHR` / `dynamic_bitset` shift (snn.cc:52-55): shift every bit
one position up (discarding the oldest bit, keeping the length) and write the
new outcome into bit 0. -/
def shiftIn (h : List Bool) (b : Bool) : List Bool :=
  (b :: h).take h.length

/-- `SNN::lookup` (snn.cc:75-98): returns the predicted direction, the freshly
allocated token and the post-call predictor state. -/
def lookup (p : SNNParams) (s : SNNState) (tid addr : Nat) :
    Bool × BPHistory × SNNState :=
  let idx := computeIndex p addr
  let ghr := s.globalHistory.getD tid []
  let entry := s.table.getD idx (Neuron.init p)
  let val := entry.predict p ghr
  let result := decide (0 ≤ val)
  let tok : BPHistory :=
    ⟨ghr, entry.localHistory, some idx, result, s.predictionID, val⟩
  (result, tok,
    { s with globalHistory := listModify s.globalHistory tid (fun g => shiftIn g result)
             predictionID := s.predictionID + 1 })

/-- `SNN::uncondBranch` (snn.cc:18-23); `InvalidPredictionID` is embedded as
`0` (the token's identifier is purely diagnostic). -/
def uncondBranch (p : SNNParams) (s : SNNState) (tid : Nat) : BPHistory × SNNState :=
  let tok : BPHistory :=
    ⟨s.globalHistory.getD tid [], [false], none, true, 0,
     (s.table.getD 0 (Neuron.init p)).theta + 1⟩
  (tok, { s with globalHistory :=
            listModify s.globalHistory tid (fun g => shiftIn g true) })

/-- `SNN::squash` (snn.cc:33-42): restore the thread's global history and,
when the token carries a table index, that neuron's local history, both
verbatim from the token's snapshots. -/
def squash (s : SNNState) (tid : Nat) (tok : BPHistory) : SNNState :=
  let s1 := { s with globalHistory :=
                listModify s.globalHistory tid (fun _ => tok.globalHistory) }
  match tok.tableIndex with
  | some i =>
      { s1 with table :=
                  listModify s1.table i
                    (fun n => { n with localHistory := tok.localHistory }) }
  | none => s1

/-- `SNN::update` (snn.cc:101-136).  Note: on the squashed path the local
history restored is that of the neuron at the RECOMPUTED address index
(`entry`), gated on the token's index being valid; the trailing
`entry.predict` diagnostic call reads no state and writes none. -/
def update (p : SNNParams) (s : SNNState) (tid addr : Nat) (taken : Bool)
    (tok : BPHistory) (squashed : Bool) : SNNState :=
  let idx := computeIndex p addr
  if squashed then
    let s1 := { s with globalHistory :=
                  listModify s.globalHistory tid (fun _ => shiftIn tok.globalHistory taken) }
    match tok.tableIndex with
    | some _ =>
        { s1 with table :=
                    listModify s1.table idx
                      (fun n =>
                        { n with localHistory := shiftIn tok.localHistory taken }) }
    | none => s1
  else
    { s with table :=
               listModify s.table idx
                 (fun n =>
                   n.fit p tok.globalHistory tok.predTaken tok.predictionValue taken) }

/-- `SNN::btbUpdate` (snn.cc:25-30): overwrite bit 0 of the thread's global
history and bit 0 of the indexed neuron's local history with `false` (no
shift). -/
def btbUpdate (p : SNNParams) (s : SNNState) (tid addr : Nat) : SNNState :=
  let idx := computeIndex p addr
  { s with globalHistory :=
             listModify s.globalHistory tid
               (fun g => listModify g 0 (fun _ => false))
           table :=
             listModify s.table idx
               (fun n =>
                 { n with localHistory :=
                            listModify n.localHistory 0 (fun _ => false) }) }

/-- States reachable through the public surface from construction.  The
`update_` and `squash_` steps accept an arbitrary token, a superset of the
tokens the host can legally hand back, so invariants proved over `Reachable`
hold a fortiori for every protocol-respecting call sequence. -/
inductive Reachable (p : SNNParams) : SNNState → Prop where
  | init : Reachable p (initState p)
  | lookup_ {s} (tid addr : Nat) :
      Reachable p s → Reachable p (lookup p s tid addr).2.2
  | uncond_ {s} (tid : Nat) :
      Reachable p s → Reachable p (uncondBranch p s tid).2
  | update_ {s} (tid addr : Nat) (taken : Bool) (tok : BPHistory) (sq : Bool) :
      Reachable p s → Reachable p (update p s tid addr taken tok sq)
  | squash_ {s} (tid : Nat) (tok : BPHistory) :
      Reachable p s → Reachable p (squash s tid tok)
  | btb_ {s} (tid addr : Nat) :
      Reachable p s → Reachable p (btbUpdate p s tid addr)

/-- Invariant (§3): a sparse segment that is not valid carries weight 0.
Quantified over every index; out-of-range reads yield `segDflt`, which
satisfies the property. -/
def SegZero (n : Neuron) : Prop :=
  ∀ i, (n.sparseSegs.getD i segDflt).valid = false →
    (n.sparseSegs.getD i segDflt).weight = 0

/-- Decidable (length-bounded) form of `SegZero`. -/
def SegZeroB (n : Neuron) : Prop :=
  ∀ i, i < n.sparseSegs.length →
    ((n.sparseSegs.getD i segDflt).valid = false →
      (n.sparseSegs.getD i segDflt).weight = 0)

instance (n : Neuron) : Decidable (SegZeroB n) := by
  unfold SegZeroB; infer_instance

/-- Sliding-window cursor invariant: `activeStart` is `denseLen` plus a whole
number of windows, and its window quotient stays below `nSegs`. -/
def ASInv (p : SNNParams) (n : Neuron) : Prop :=
  (∃ k, n.activeStart = p.denseGlobalHistoryLen + k * p.sparseGHSegLen) ∧
    n.activeStart / p.sparseGHSegLen < p.sparseGHNSegs

/-- Every stored segment position is inside the global history register. -/
def PtrInv (p : SNNParams) (n : Neuron) : Prop :=
  ∀ i, (n.sparseSegs.getD i segDflt).ptr <
    p.denseGlobalHistoryLen + p.sparseGHNSegs * p.sparseGHSegLen

/-- All learned state of two neurons coincides (everything except the local
history register). -/
def weightsEq (a b : Neuron) : Prop :=
  a.denseWeights = b.denseWeights ∧ a.activeWeights = b.activeWeights ∧
    a.sparseSegs = b.sparseSegs ∧ a.theta = b.theta ∧
    a.activeStart = b.activeStart ∧ a.activeTime = b.activeTime

/-- The neuron `lookup`/`update` addresses for a given branch address. -/
def entryAt (p : SNNParams) (s : SNNState) (addr : Nat) : Neuron :=
  s.table.getD (computeIndex p addr) (Neuron.init p)

/-- The global history register of a thread. -/
def ghrAt (s : SNNState) (tid : Nat) : List Bool :=
  s.globalHistory.getD tid []

/-- The mutating operations of the saturating counter (spec §4.1). -/
inductive SatOp where
  | inc : SatOp
  | dec : SatOp
  | addOp : Int → SatOp
deriving DecidableEq

/-- Modelled from the spec: one saturating-counter mutation. -/
def satStep (bits : Nat) (v : Int) : SatOp → Int
  | SatOp.inc => satAdd bits v 1
  | SatOp.dec => satAdd bits v (-1)
  | SatOp.addOp d => satAdd bits v d

/-- A counter constructed at 0 (as in `Neuron::Neuron`) after a sequence of
mutations. -/
def satRun (bits : Nat) (ops : List SatOp) : Int :=
  ops.foldl (satStep bits) 0

/-- A small well-behaved configuration (used to instantiate hypotheses of the
universally quantified theorems below). -/
def pGood : SNNParams := ⟨2, 1, 2, 2, 1, 3, 1, 1⟩

/-- A configuration with `denseGlobalHistoryLen ≥ sparseGHNSegs * sparseGHSegLen`
(8 ≥ 3*2), on which the window cursor never wraps. -/
def pBad : SNNParams := ⟨2, 8, 2, 3, 1, 6, 1, 1⟩

/-- One committed branch at address 0 on thread 0: `lookup` followed by the
matching non-squashed `update` with outcome taken. -/
def badStep (s : SNNState) : SNNState :=
  update pBad (lookup pBad s 0 0).2.2 0 0 true (lookup pBad s 0 0).2.1 false

def badTok1 : BPHistory := (lookup pBad (initState pBad) 0 0).2.1

def badS1 : SNNState := (lookup pBad (initState pBad) 0 0).2.2

def badS3 : SNNState := badStep (badStep (badStep (initState pBad)))

/-- Configuration for exercising segment promotion: one segment of length 2
after the dense window of length 1, reselection every 2 training calls. -/
def pC4 : SNNParams := ⟨1, 1, 2, 1, 1, 6, 2, 1⟩

/-- History snapshots for the two training calls (bit 1 and bit 2 are the
active window `[activeStart, activeStart+2) = [1, 3)`). -/
def ghrC4a : List Bool := [false, true, true]

def ghrC4b : List Bool := [false, false, true]

/-- The neuron after two taken outcomes whose active-window correlation is
maximal at window index 1 (so `|w1| = 2 > 0 = |w0|` at reselection). -/
def nC4 : Neuron :=
  Neuron.fit pC4 ghrC4b true 0 true
    (Neuron.fit pC4 ghrC4a true 0 true (Neuron.init pC4))

/-- Two-entry table configuration for the squashed-update counterexample. -/
def pC7 : SNNParams := ⟨2, 1, 2, 1, 1, 6, 4, 1⟩

/-- Token produced by a lookup at address 4, which indexes neuron 1. -/
def c7tok : BPHistory := (lookup pC7 (initState pC7) 0 4).2.1

def c7s1 : SNNState := (lookup pC7 (initState pC7) 0 4).2.2

/-- Squashed update handed the neuron-1 token but address 0 (neuron 0). -/
def c7s2 : SNNState := update pC7 c7s1 0 0 true c7tok true

theorem length_tabulate {α : Type} (n : Nat) (f : Nat → α) :
    (tabulate n f).length = n := by
  induction n generalizing f with
  | zero => rfl
  | succ n ih => simp [tabulate, ih]

theorem getD_tabulate_lt {α : Type} (n : Nat) (f : Nat → α) (i : Nat) (d : α)
    (h : i < n) : (tabulate n f).getD i d = f i := by
  induction n generalizing f i with
  | zero => omega
  | succ n ih =>
    cases i with
    | zero => rfl
    | succ i => exact ih (fun j => f (j + 1)) i (by omega)

theorem getD_tabulate_ge {α : Type} (n : Nat) (f : Nat → α) (i : Nat) (d : α)
    (h : n ≤ i) : (tabulate n f).getD i d = d :=
  List.getD_eq_default _ _ (by rw [length_tabulate]; exact h)

theorem length_listModify {α : Type} (l : List α) (i : Nat) (f : α → α) :
    (listModify l i f).length = l.length := by
  induction l generalizing i with
  | nil => rfl
  | cons a t ih =>
    cases i with
    | zero => rfl
    | succ i => simp [listModify, ih]

theorem getD_listModify {α : Type} (l : List α) (i : Nat) (f : α → α)
    (j : Nat) (d : α) :
    (listModify l i f).getD j d =
      if i = j ∧ j < l.length then f (l.getD j d) else l.getD j d := by
  induction l generalizing i j with
  | nil => simp [listModify]
  | cons a t ih =>
    cases i with
    | zero =>
      cases j with
      | zero => simp [listModify]
      | succ j => simp [listModify]
    | succ i =>
      cases j with
      | zero => simp [listModify]
      | succ j =>
        simp only [listModify, List.getD_cons_succ, ih, List.length_cons]
        by_cases h1 : i = j
        · by_cases h2 : j < t.length
          · rw [if_pos ⟨h1, h2⟩, if_pos ⟨by omega, by omega⟩]
          · rw [if_neg (by omega), if_neg (by omega)]
        · rw [if_neg (by omega), if_neg (by omega)]

/-- Lift a per-element property through `listModify` under total `getD`
quantification. -/
theorem getD_listModify_pred {α : Type} {P : α → Prop} {l : List α} {d : α}
    (h : ∀ j, P (l.getD j d)) (i : Nat) (f : α → α)
    (hf : ∀ a, P a → P (f a)) :
    ∀ j, P ((listModify l i f).getD j d) := by
  intro j
  rw [getD_listModify]
  by_cases hc : i = j ∧ j < l.length
  · rw [if_pos hc]; exact hf _ (h j)
  · rw [if_neg hc]; exact h j

theorem sumRange_congr {f g : Nat → Int} (n : Nat)
    (h : ∀ i, i < n → f i = g i) : sumRange f n = sumRange g n := by
  induction n with
  | zero => rfl
  | succ n ih =>
    simp only [sumRange]
    rw [ih (fun i hi => h i (by omega)), h n (by omega)]

theorem two_pow_pos (e : Nat) : (0 : Int) < 2 ^ e := pow_pos (by norm_num) e

theorem clampS_lb (bits : Nat) (v : Int) :
    -((2 : Int) ^ (bits - 1)) ≤ clampS bits v := le_max_left _ _

theorem clampS_ub (bits : Nat) (v : Int) :
    clampS bits v ≤ (2 : Int) ^ (bits - 1) - 1 := by
  have h := two_pow_pos (bits - 1)
  exact max_le (by linarith) (min_le_left _ _)

theorem clampS_zero (bits : Nat) : clampS bits 0 = 0 := by
  have h := two_pow_pos (bits - 1)
  unfold clampS
  rw [min_eq_right (by linarith), max_eq_right (by linarith)]

theorem satAdd_zero_zero (bits : Nat) : satAdd bits 0 0 = 0 := by
  simpa [satAdd] using clampS_zero bits

theorem argmaxAbs_fst_lt (ws : Nat → Int) (len : Nat) (h : 0 < len) :
    (argmaxAbs ws len).1 < len := by
  have key : ∀ (l : List Nat) (acc : Nat × Nat), acc.1 < len →
      (∀ x ∈ l, x < len) →
      ((l.foldl (fun acc i =>
          if (ws i).natAbs > acc.2 then (i, (ws i).natAbs) else acc) acc).1 < len) := by
    intro l
    induction l with
    | nil => intro acc hacc _; exact hacc
    | cons a t ih =>
      intro acc hacc hmem
      simp only [List.foldl_cons]
      apply ih
      · by_cases hc : (ws a).natAbs > acc.2
        · simpa [hc] using hmem a (by simp)
        · simpa [hc] using hacc
      · intro x hx; exact hmem x (by simp [hx])
  exact key (List.range len) (0, (ws 0).natAbs) h
    (fun x hx => List.mem_range.mp hx)

/-- The per-step training delta of an invalid segment is masked to zero
(snn.cc:206-210), so `fit` keeps invalid segments' weights at 0. -/
theorem fit_SegZero (p : SNNParams) (ghr : List Bool) (pt : Bool) (pv : Int)
    (tk : Bool) (n : Neuron) (h : SegZero n) :
    SegZero (n.fit p ghr pt pv tk) := by
  have hbase : ∀ i,
      ((tabulate p.sparseGHNSegs (fun i =>
        let s := n.sparseSegs.getD i segDflt
        { s with weight :=
                   satAdd p.ctrBits s.weight
                     (b2s tk * b2s (ghr.getD s.ptr false)
                       * (if s.valid then 1 else 0)) })).getD i segDflt).valid = false →
      ((tabulate p.sparseGHNSegs (fun i =>
        let s := n.sparseSegs.getD i segDflt
        { s with weight :=
                   satAdd p.ctrBits s.weight
                     (b2s tk * b2s (ghr.getD s.ptr false)
                       * (if s.valid then 1 else 0)) })).getD i segDflt).weight = 0 := by
    intro i
    by_cases hi : i < p.sparseGHNSegs
    · rw [getD_tabulate_lt _ _ _ _ hi]
      dsimp only
      intro hv
      have hw := h i hv
      rw [hv, hw]
      simp [satAdd_zero_zero]
    · rw [getD_tabulate_ge _ _ _ _ (by omega)]
      intro _; rfl
  unfold Neuron.fit
  by_cases hskip : tk = pt ∧ ((pv.natAbs : Int) > n.theta)
  · rw [if_pos hskip]; exact h
  · rw [if_neg hskip]
    by_cases hres : fitReselects p n = true
    · rw [if_pos hres]
      intro i
      dsimp only
      rw [getD_listModify]
      by_cases hc : reselectSegIdx p n = i ∧
          i < (tabulate p.sparseGHNSegs (fun i =>
            let s := n.sparseSegs.getD i segDflt
            { s with weight :=
                       satAdd p.ctrBits s.weight
                         (b2s tk * b2s (ghr.getD s.ptr false)
                           * (if s.valid then 1 else 0)) })).length
      · rw [if_pos hc]
        by_cases hv : ((tabulate p.sparseGHNSegs (fun i =>
            let s := n.sparseSegs.getD i segDflt
            { s with weight :=
                       satAdd p.ctrBits s.weight
                         (b2s tk * b2s (ghr.getD s.ptr false)
                           * (if s.valid then 1 else 0)) })).getD i segDflt).valid = false
        · rw [if_pos hv]; intro habs; simp at habs
        · rw [if_neg hv]
          by_cases hp : ((tabulate p.sparseGHNSegs (fun i =>
              let s := n.sparseSegs.getD i segDflt
              { s with weight :=
                         satAdd p.ctrBits s.weight
                           (b2s tk * b2s (ghr.getD s.ptr false)
                             * (if s.valid then 1 else 0)) })).getD i segDflt).ptr =
              (argmaxAbs (fun i => (tabulate p.sparseGHSegLen (fun i =>
                satAdd p.ctrBits (n.activeWeights.getD i 0)
                  (b2s tk * b2s (ghr.getD (n.activeStart + i) false)))).getD i 0)
                p.sparseGHSegLen).1
          · rw [if_pos hp]; exact hbase i
          · rw [if_neg hp]
            intro habs
            exact absurd habs (by simpa using hv)
      · rw [if_neg hc]; exact hbase i
    · rw [if_neg hres]
      intro i
      exact hbase i

/-- snn.cc:244-248: the cursor either advances by one window or wraps to
`denseGlobalHistoryLen`; in configurations with
`denseGlobalHistoryLen < sparseGHNSegs * sparseGHSegLen` this preserves
alignment and keeps the window quotient below `sparseGHNSegs`. -/
theorem fit_ASInv (p : SNNParams)
    (hcfg : p.denseGlobalHistoryLen < p.sparseGHNSegs * p.sparseGHSegLen)
    (ghr : List Bool) (pt : Bool) (pv : Int) (tk : Bool) (n : Neuron)
    (h : ASInv p n) : ASInv p (n.fit p ghr pt pv tk) := by
  have hseg : 0 < p.sparseGHSegLen := by
    rcases Nat.eq_zero_or_pos p.sparseGHSegLen with h0 | h0
    · rw [h0, Nat.mul_zero] at hcfg; omega
    · exact h0
  unfold Neuron.fit
  by_cases hskip : tk = pt ∧ ((pv.natAbs : Int) > n.theta)
  · rw [if_pos hskip]; exact h
  · rw [if_neg hskip]
    by_cases hres : fitReselects p n = true
    · rw [if_pos hres]
      obtain ⟨⟨k, hk⟩, hdiv⟩ := h
      constructor
      · dsimp only
        by_cases hw : n.activeStart / p.sparseGHSegLen ≠ p.sparseGHNSegs - 1
        · rw [if_pos hw]
          exact ⟨k + 1, by rw [hk]; ring⟩
        · rw [if_neg hw]
          exact ⟨0, by ring⟩
      · dsimp only
        by_cases hw : n.activeStart / p.sparseGHSegLen ≠ p.sparseGHNSegs - 1
        · rw [if_pos hw, Nat.add_div_right _ hseg]
          generalize n.activeStart / p.sparseGHSegLen = q at hdiv hw ⊢
          omega
        · rw [if_neg hw]
          exact (Nat.div_lt_iff_lt_mul hseg).mpr hcfg
    · rw [if_neg hres]
      exact h

/-- `fit` only ever writes window-local indices (each `< sparseGHSegLen`)
into a segment's `ptr`, so all stored positions stay inside the global
history register. -/
theorem fit_PtrInv (p : SNNParams)
    (hcfg : p.denseGlobalHistoryLen < p.sparseGHNSegs * p.sparseGHSegLen)
    (ghr : List Bool) (pt : Bool) (pv : Int) (tk : Bool) (n : Neuron)
    (h : PtrInv p n) : PtrInv p (n.fit p ghr pt pv tk) := by
  have hseg : 0 < p.sparseGHSegLen := by
    rcases Nat.eq_zero_or_pos p.sparseGHSegLen with h0 | h0
    · rw [h0, Nat.mul_zero] at hcfg; omega
    · exact h0
  have hnsegs : 0 < p.sparseGHNSegs := by
    rcases Nat.eq_zero_or_pos p.sparseGHNSegs with h0 | h0
    · rw [h0, Nat.zero_mul] at hcfg; omega
    · exact h0
  have hL : 0 < p.denseGlobalHistoryLen + p.sparseGHNSegs * p.sparseGHSegLen := by
    omega
  have hsegL : p.sparseGHSegLen ≤
      p.denseGlobalHistoryLen + p.sparseGHNSegs * p.sparseGHSegLen := by
    have := Nat.mul_le_mul_right p.sparseGHSegLen hnsegs
    omega
  have hbase : ∀ i,
      ((tabulate p.sparseGHNSegs (fun i =>
        let s := n.sparseSegs.getD i segDflt
        { s with weight :=
                   satAdd p.ctrBits s.weight
                     (b2s tk * b2s (ghr.getD s.ptr false)
                       * (if s.valid then 1 else 0)) })).getD i segDflt).ptr <
      p.denseGlobalHistoryLen + p.sparseGHNSegs * p.sparseGHSegLen := by
    intro i
    by_cases hi : i < p.sparseGHNSegs
    · rw [getD_tabulate_lt _ _ _ _ hi]
      exact h i
    · rw [getD_tabulate_ge _ _ _ _ (by omega)]
      exact hL
  unfold Neuron.fit
  by_cases hskip : tk = pt ∧ ((pv.natAbs : Int) > n.theta)
  · rw [if_pos hskip]; exact h
  · rw [if_neg hskip]
    by_cases hres : fitReselects p n = true
    · rw [if_pos hres]
      intro i
      dsimp only
      rw [getD_listModify]
      have hmi : (argmaxAbs (fun i => (tabulate p.sparseGHSegLen (fun i =>
          satAdd p.ctrBits (n.activeWeights.getD i 0)
            (b2s tk * b2s (ghr.getD (n.activeStart + i) false)))).getD i 0)
          p.sparseGHSegLen).1 < p.sparseGHSegLen :=
        argmaxAbs_fst_lt _ _ hseg
      by_cases hc : reselectSegIdx p n = i ∧
          i < (tabulate p.sparseGHNSegs (fun i =>
            let s := n.sparseSegs.getD i segDflt
            { s with weight :=
                       satAdd p.ctrBits s.weight
                         (b2s tk * b2s (ghr.getD s.ptr false)
                           * (if s.valid then 1 else 0)) })).length
      · rw [if_pos hc]
        by_cases hv : ((tabulate p.sparseGHNSegs (fun i =>
            let s := n.sparseSegs.getD i segDflt
            { s with weight :=
                       satAdd p.ctrBits s.weight
                         (b2s tk * b2s (ghr.getD s.ptr false)
                           * (if s.valid then 1 else 0)) })).getD i segDflt).valid = false
        · rw [if_pos hv]
          exact Nat.lt_of_lt_of_le hmi hsegL
        · rw [if_neg hv]
          by_cases hp : ((tabulate p.sparseGHNSegs (fun i =>
              let s := n.sparseSegs.getD i segDflt
              { s with weight :=
                         satAdd p.ctrBits s.weight
                           (b2s tk * b2s (ghr.getD s.ptr false)
                             * (if s.valid then 1 else 0)) })).getD i segDflt).ptr =
              (argmaxAbs (fun i => (tabulate p.sparseGHSegLen (fun i =>
                satAdd p.ctrBits (n.activeWeights.getD i 0)
                  (b2s tk * b2s (ghr.getD (n.activeStart + i) false)))).getD i 0)
                p.sparseGHSegLen).1
          · rw [if_pos hp]; exact hbase i
          · rw [if_neg hp]
            exact Nat.lt_of_lt_of_le hmi hsegL
      · rw [if_neg hc]; exact hbase i
    · rw [if_neg hres]
      intro i
      exact hbase i

theorem lookup_table (p : SNNParams) (s : SNNState) (tid addr : Nat) :
    (lookup p s tid addr).2.2.table = s.table := rfl

theorem uncond_table (p : SNNParams) (s : SNNState) (tid : Nat) :
    (uncondBranch p s tid).2.table = s.table := rfl

theorem update_table_false (p : SNNParams) (s : SNNState) (tid addr : Nat)
    (taken : Bool) (tok : BPHistory) :
    (update p s tid addr taken tok false).table =
      listModify s.table (computeIndex p addr)
        (fun n => n.fit p tok.globalHistory tok.predTaken tok.predictionValue taken) :=
  rfl

theorem update_table_true_none (p : SNNParams) (s : SNNState) (tid addr : Nat)
    (taken : Bool) (tok : BPHistory) (h : tok.tableIndex = none) :
    (update p s tid addr taken tok true).table = s.table := by
  simp [update, h]

theorem update_table_true_some (p : SNNParams) (s : SNNState) (tid addr : Nat)
    (taken : Bool) (tok : BPHistory) (i : Nat) (h : tok.tableIndex = some i) :
    (update p s tid addr taken tok true).table =
      listModify s.table (computeIndex p addr)
        (fun n => { n with localHistory := shiftIn tok.localHistory taken }) := by
  simp [update, h]

theorem update_ghr_true (p : SNNParams) (s : SNNState) (tid addr : Nat)
    (taken : Bool) (tok : BPHistory) :
    (update p s tid addr taken tok true).globalHistory =
      listModify s.globalHistory tid (fun _ => shiftIn tok.globalHistory taken) := by
  cases h : tok.tableIndex <;> simp [update, h]

theorem squash_ghr (s : SNNState) (tid : Nat) (tok : BPHistory) :
    (squash s tid tok).globalHistory =
      listModify s.globalHistory tid (fun _ => tok.globalHistory) := by
  cases h : tok.tableIndex <;> simp [squash, h]

theorem squash_table_none (s : SNNState) (tid : Nat) (tok : BPHistory)
    (h : tok.tableIndex = none) : (squash s tid tok).table = s.table := by
  simp [squash, h]

theorem squash_table_some (s : SNNState) (tid : Nat) (tok : BPHistory) (i : Nat)
    (h : tok.tableIndex = some i) :
    (squash s tid tok).table =
      listModify s.table i (fun n => { n with localHistory := tok.localHistory }) := by
  simp [squash, h]

theorem btb_table (p : SNNParams) (s : SNNState) (tid addr : Nat) :
    (btbUpdate p s tid addr).table =
      listModify s.table (computeIndex p addr)
        (fun n => { n with localHistory :=
                      listModify n.localHistory 0 (fun _ => false) }) := rfl

theorem initState_table_getD (p : SNNParams) (j : Nat) :
    (initState p).table.getD j (Neuron.init p) = Neuron.init p := by
  show (tabulate p.tableSize (fun _ => Neuron.init p)).getD j (Neuron.init p) = _
  by_cases hj : j < p.tableSize
  · rw [getD_tabulate_lt _ _ _ _ hj]
  · rw [getD_tabulate_ge _ _ _ _ (by omega)]

theorem segZero_init (p : SNNParams) : SegZero (Neuron.init p) := by
  intro i
  rw [show (Neuron.init p).sparseSegs = tabulate p.sparseGHNSegs (fun _ => segDflt)
    from rfl]
  by_cases hi : i < p.sparseGHNSegs
  · rw [getD_tabulate_lt _ _ _ _ hi]; intro _; rfl
  · rw [getD_tabulate_ge _ _ _ _ (by omega)]; intro _; rfl

theorem ASInv_init (p : SNNParams)
    (hcfg : p.denseGlobalHistoryLen < p.sparseGHNSegs * p.sparseGHSegLen) :
    ASInv p (Neuron.init p) := by
  have hseg : 0 < p.sparseGHSegLen := by
    rcases Nat.eq_zero_or_pos p.sparseGHSegLen with h0 | h0
    · rw [h0, Nat.mul_zero] at hcfg; omega
    · exact h0
  constructor
  · exact ⟨0, by rw [show (Neuron.init p).activeStart = p.denseGlobalHistoryLen
      from rfl]; omega⟩
  · rw [show (Neuron.init p).activeStart = p.denseGlobalHistoryLen from rfl]
    exact (Nat.div_lt_iff_lt_mul hseg).mpr hcfg

theorem PtrInv_init (p : SNNParams)
    (hL : 0 < p.denseGlobalHistoryLen + p.sparseGHNSegs * p.sparseGHSegLen) :
    PtrInv p (Neuron.init p) := by
  intro i
  rw [show (Neuron.init p).sparseSegs = tabulate p.sparseGHNSegs (fun _ => segDflt)
    from rfl]
  by_cases hi : i < p.sparseGHNSegs
  · rw [getD_tabulate_lt _ _ _ _ hi]; exact hL
  · rw [getD_tabulate_ge _ _ _ _ (by omega)]; exact hL

/-- Invalid segments have zero weight in every reachable predictor state:
the table-level induction over the public surface. -/
theorem reach_SegZero (p : SNNParams) {s : SNNState} (hr : Reachable p s) :
    ∀ j, SegZero (s.table.getD j (Neuron.init p)) := by
  induction hr with
  | init =>
    intro j
    rw [initState_table_getD]
    exact segZero_init p
  | lookup_ tid addr _ ih => exact ih
  | uncond_ tid _ ih => exact ih
  | update_ tid addr taken tok sq _ ih =>
    intro j
    cases sq with
    | false =>
      rw [update_table_false, getD_listModify]
      split
      · exact fit_SegZero p _ _ _ _ _ (ih j)
      · exact ih j
    | true =>
      cases htok : tok.tableIndex with
      | none =>
        rw [update_table_true_none _ _ _ _ _ _ htok]
        exact ih j
      | some i =>
        rw [update_table_true_some _ _ _ _ _ _ i htok, getD_listModify]
        split
        · exact ih j
        · exact ih j
  | squash_ tid tok _ ih =>
    intro j
    cases htok : tok.tableIndex with
    | none =>
      rw [squash_table_none _ _ _ htok]
      exact ih j
    | some i =>
      rw [squash_table_some _ _ _ i htok, getD_listModify]
      split
      · exact ih j
      · exact ih j
  | btb_ tid addr _ ih =>
    intro j
    rw [btb_table, getD_listModify]
    split
    · exact ih j
    · exact ih j

/-- The window-cursor and segment-position invariants hold in every reachable
state, provided the dense window is shorter than the sparse region. -/
theorem reach_geom (p : SNNParams)
    (hcfg : p.denseGlobalHistoryLen < p.sparseGHNSegs * p.sparseGHSegLen)
    {s : SNNState} (hr : Reachable p s) :
    ∀ j, ASInv p (s.table.getD j (Neuron.init p)) ∧
      PtrInv p (s.table.getD j (Neuron.init p)) := by
  have hL : 0 < p.denseGlobalHistoryLen + p.sparseGHNSegs * p.sparseGHSegLen := by
    omega
  induction hr with
  | init =>
    intro j
    rw [initState_table_getD]
    exact ⟨ASInv_init p hcfg, PtrInv_init p hL⟩
  | lookup_ tid addr _ ih => exact ih
  | uncond_ tid _ ih => exact ih
  | update_ tid addr taken tok sq _ ih =>
    intro j
    cases sq with
    | false =>
      rw [update_table_false, getD_listModify]
      split
      · exact ⟨fit_ASInv p hcfg _ _ _ _ _ (ih j).1,
               fit_PtrInv p hcfg _ _ _ _ _ (ih j).2⟩
      · exact ih j
    | true =>
      cases htok : tok.tableIndex with
      | none =>
        rw [update_table_true_none _ _ _ _ _ _ htok]
        exact ih j
      | some i =>
        rw [update_table_true_some _ _ _ _ _ _ i htok, getD_listModify]
        split
        · exact ih j
        · exact ih j
  | squash_ tid tok _ ih =>
    intro j
    cases htok : tok.tableIndex with
    | none =>
      rw [squash_table_none _ _ _ htok]
      exact ih j
    | some i =>
      rw [squash_table_some _ _ _ i htok, getD_listModify]
      split
      · exact ih j
      · exact ih j
  | btb_ tid addr _ ih =>
    intro j
    rw [btb_table, getD_listModify]
    split
    · exact ih j
    · exact ih j

/-- Window reads `ghr[activeStart + i]`, `i < sparseGHSegLen`, stay inside the
global history register whenever the cursor invariant holds. -/
theorem ASInv_add_lt (p : SNNParams)
    (hcfg : p.denseGlobalHistoryLen < p.sparseGHNSegs * p.sparseGHSegLen)
    (n : Neuron) (h : ASInv p n) :
    ∀ i, i < p.sparseGHSegLen →
      n.activeStart + i <
        p.denseGlobalHistoryLen + p.sparseGHNSegs * p.sparseGHSegLen := by
  intro i hi
  have hseg : 0 < p.sparseGHSegLen := by
    rcases Nat.eq_zero_or_pos p.sparseGHSegLen with h0 | h0
    · rw [h0, Nat.mul_zero] at hcfg; omega
    · exact h0
  have hnsegs : 0 < p.sparseGHNSegs := by
    rcases Nat.eq_zero_or_pos p.sparseGHNSegs with h0 | h0
    · rw [h0, Nat.zero_mul] at hcfg; omega
    · exact h0
  obtain ⟨⟨k, hk⟩, hdiv⟩ := h
  have hmod : n.activeStart % p.sparseGHSegLen =
      p.denseGlobalHistoryLen % p.sparseGHSegLen := by
    rw [hk]; exact Nat.add_mul_mod_self_right _ _ _
  have hmodle : n.activeStart % p.sparseGHSegLen ≤ p.denseGlobalHistoryLen := by
    rw [hmod]; exact Nat.mod_le _ _
  have hdm := Nat.div_add_mod n.activeStart p.sparseGHSegLen
  have hq : n.activeStart / p.sparseGHSegLen ≤ p.sparseGHNSegs - 1 := by
    omega
  have hmul : p.sparseGHSegLen * (n.activeStart / p.sparseGHSegLen) ≤
      p.sparseGHSegLen * (p.sparseGHNSegs - 1) :=
    Nat.mul_le_mul_left _ hq
  have hms : p.sparseGHSegLen * (p.sparseGHNSegs - 1) + p.sparseGHSegLen =
      p.sparseGHSegLen * p.sparseGHNSegs := by
    obtain ⟨m, hm⟩ : ∃ m, p.sparseGHNSegs = m + 1 :=
      ⟨p.sparseGHNSegs - 1, by omega⟩
    rw [hm]
    simp [Nat.mul_succ]
  have hcomm : p.sparseGHSegLen * p.sparseGHNSegs =
      p.sparseGHNSegs * p.sparseGHSegLen := Nat.mul_comm _ _
  linarith [hdm, hmul, hms, hmodle, hi, hcomm]

/-- Under the zero-weight invariant for invalid segments, the source's
unconditional sparse sum coincides with the spec's valid-only sum. -/
theorem predict_eq_spec (p : SNNParams) (n : Neuron) (ghr : List Bool)
    (h : SegZero n) :
    n.predict p ghr = n.predictSpecFormula p ghr := by
  unfold Neuron.predict Neuron.predictSpecFormula
  congr 1
  apply sumRange_congr
  intro i _
  by_cases hv : (n.sparseSegs.getD i segDflt).valid
  · rw [if_pos hv]
  · rw [if_neg hv, h i (by simpa using hv), mul_zero]

theorem segZeroB_imp (n : Neuron) (h : SegZeroB n) : SegZero n := by
  intro i
  by_cases hi : i < n.sparseSegs.length
  · exact h i hi
  · rw [List.getD_eq_default _ _ (by omega)]
    intro _; rfl

/-- C8: for a counter of `b` bits, any sequence of `increment`, `decrement`
and `add` mutations started from 0 keeps the stored value within
`[-2^(b-1), 2^(b-1)-1]`: every mutation clamps into this range. -/
theorem satCounter_range (bits : Nat) (ops : List SatOp) :
    -((2 : Int) ^ (bits - 1)) ≤ satRun bits ops ∧
      satRun bits ops ≤ (2 : Int) ^ (bits - 1) - 1 := by
  have key : ∀ (l : List SatOp) (v : Int),
      -((2 : Int) ^ (bits - 1)) ≤ v ∧ v ≤ (2 : Int) ^ (bits - 1) - 1 →
      -((2 : Int) ^ (bits - 1)) ≤ l.foldl (satStep bits) v ∧
        l.foldl (satStep bits) v ≤ (2 : Int) ^ (bits - 1) - 1 := by
    intro l
    induction l with
    | nil => intro v hv; simpa using hv
    | cons a t ih =>
      intro v hv
      simp only [List.foldl_cons]
      apply ih
      cases a with
      | inc => exact ⟨clampS_lb _ _, clampS_ub _ _⟩
      | dec => exact ⟨clampS_lb _ _, clampS_ub _ _⟩
      | addOp d => exact ⟨clampS_lb _ _, clampS_ub _ _⟩
  apply key
  have h := two_pow_pos (bits - 1)
  constructor <;> linarith

/-- C3: when the outcome matches the prediction and the score's magnitude
exceeds `theta`, `fit` returns with the neuron completely unchanged
(snn.cc:185-188). -/
theorem fit_skip_noop (p : SNNParams) (ghr : List Bool) (predTaken taken : Bool)
    (predVal : Int) (n : Neuron)
    (h : taken = predTaken ∧ ((predVal.natAbs : Int) > n.theta)) :
    Neuron.fit p ghr predTaken predVal taken n = n := by
  unfold Neuron.fit
  rw [if_pos h]

theorem fit_skip_noop_witness :
    (true = true ∧ (((100 : Int).natAbs : Int) > (Neuron.init pGood).theta)) ∧
      Neuron.fit pGood [] true 100 true (Neuron.init pGood) = Neuron.init pGood :=
  ⟨⟨rfl, by decide⟩,
   fit_skip_noop pGood [] true true 100 (Neuron.init pGood) ⟨rfl, by decide⟩⟩

/-- C1: under the invalid-segments-have-zero-weight invariant, `predict`
returns exactly the spec formula (bias + dense sum + active-window sum +
valid-sparse-segment sum), and `lookup`'s predicted direction is
`score >= 0`.  The C++ `predict` writes no predictor state (it is embedded
as a pure function of the neuron and the supplied history). -/
theorem predict_matches_spec (p : SNNParams) (s : SNNState) (tid addr : Nat)
    (h : SegZeroB (entryAt p s addr)) :
    (entryAt p s addr).predict p (ghrAt s tid) =
        (entryAt p s addr).predictSpecFormula p (ghrAt s tid) ∧
      (lookup p s tid addr).1 =
        decide (0 ≤ (entryAt p s addr).predictSpecFormula p (ghrAt s tid)) := by
  have he := predict_eq_spec p _ (ghrAt s tid) (segZeroB_imp _ h)
  refine ⟨he, ?_⟩
  show decide (0 ≤ (entryAt p s addr).predict p (ghrAt s tid)) = _
  rw [he]

theorem predict_matches_spec_witness :
    SegZeroB (entryAt pGood (initState pGood) 0) ∧
      ((entryAt pGood (initState pGood) 0).predict pGood (ghrAt (initState pGood) 0) =
          (entryAt pGood (initState pGood) 0).predictSpecFormula pGood
            (ghrAt (initState pGood) 0) ∧
        (lookup pGood (initState pGood) 0 0).1 =
          decide (0 ≤ (entryAt pGood (initState pGood) 0).predictSpecFormula pGood
            (ghrAt (initState pGood) 0))) :=
  ⟨by decide, predict_matches_spec pGood (initState pGood) 0 0 (by decide)⟩

/-- C9: in every reachable state every invalid sparse segment has weight
exactly 0, and consequently `predict`'s unconditional sum over all segments
equals the spec's sum over valid segments only. -/
theorem invalid_segments_zero (p : SNNParams) (s : SNNState) (hr : Reachable p s) :
    (∀ j i,
        ((s.table.getD j (Neuron.init p)).sparseSegs.getD i segDflt).valid = false →
        ((s.table.getD j (Neuron.init p)).sparseSegs.getD i segDflt).weight = 0) ∧
      ∀ j ghr, (s.table.getD j (Neuron.init p)).predict p ghr =
        (s.table.getD j (Neuron.init p)).predictSpecFormula p ghr := by
  have hz := reach_SegZero p hr
  exact ⟨fun j => hz j, fun j ghr => predict_eq_spec p _ ghr (hz j)⟩

theorem invalid_segments_zero_witness :
    (∀ j i,
        (((initState pGood).table.getD j (Neuron.init pGood)).sparseSegs.getD i
            segDflt).valid = false →
        (((initState pGood).table.getD j (Neuron.init pGood)).sparseSegs.getD i
            segDflt).weight = 0) ∧
      ∀ j ghr, ((initState pGood).table.getD j (Neuron.init pGood)).predict pGood ghr =
        ((initState pGood).table.getD j (Neuron.init pGood)).predictSpecFormula pGood
          ghr :=
  invalid_segments_zero pGood (initState pGood) Reachable.init

/-- C2: squashing the token produced by a `lookup` restores the thread's
global history and the indexed neuron's local history bit-for-bit to their
pre-prediction snapshots (no re-shift), and changes no weight of any
neuron in the state being squashed. -/
theorem squash_roundtrip (p : SNNParams) (s s2 : SNNState) (tid addr : Nat)
    (hg : tid < s2.globalHistory.length)
    (ht : computeIndex p addr < s2.table.length) :
    (squash s2 tid (lookup p s tid addr).2.1).globalHistory.getD tid [] =
        s.globalHistory.getD tid [] ∧
      ((squash s2 tid (lookup p s tid addr).2.1).table.getD (computeIndex p addr)
          (Neuron.init p)).localHistory =
        (s.table.getD (computeIndex p addr) (Neuron.init p)).localHistory ∧
      ∀ j, weightsEq
        ((squash s2 tid (lookup p s tid addr).2.1).table.getD j (Neuron.init p))
        (s2.table.getD j (Neuron.init p)) := by
  have htok : (lookup p s tid addr).2.1.tableIndex = some (computeIndex p addr) := rfl
  refine ⟨?_, ?_, ?_⟩
  · rw [squash_ghr, getD_listModify, if_pos ⟨rfl, hg⟩]
    rfl
  · rw [squash_table_some _ _ _ _ htok, getD_listModify, if_pos ⟨rfl, ht⟩]
    rfl
  · intro j
    rw [squash_table_some _ _ _ _ htok, getD_listModify]
    split
    · exact ⟨rfl, rfl, rfl, rfl, rfl, rfl⟩
    · exact ⟨rfl, rfl, rfl, rfl, rfl, rfl⟩

theorem squash_roundtrip_witness :
    (0 < (initState pGood).globalHistory.length ∧
        computeIndex pGood 0 < (initState pGood).table.length) ∧
      ((squash (initState pGood) 0
            (lookup pGood (initState pGood) 0 0).2.1).globalHistory.getD 0 [] =
          (initState pGood).globalHistory.getD 0 [] ∧
        ((squash (initState pGood) 0
              (lookup pGood (initState pGood) 0 0).2.1).table.getD
            (computeIndex pGood 0) (Neuron.init pGood)).localHistory =
          ((initState pGood).table.getD (computeIndex pGood 0)
            (Neuron.init pGood)).localHistory ∧
        ∀ j, weightsEq
          ((squash (initState pGood) 0
              (lookup pGood (initState pGood) 0 0).2.1).table.getD j
            (Neuron.init pGood))
          ((initState pGood).table.getD j (Neuron.init pGood))) :=
  ⟨⟨by decide, by decide⟩,
   squash_roundtrip pGood (initState pGood) (initState pGood) 0 0
     (by decide) (by decide)⟩

/-- C7 (amended): a squashed `update` restores-and-reshifts the thread's
global history from the token's snapshot; the local history that is
restored-and-reshifted belongs to the neuron at the RECOMPUTED index
`(address >> 2) % tableSize` (equal to the token's index whenever `update`
is called with the same address as the `lookup`, as the protocol does); no
weight changes anywhere. -/
theorem update_squashed_spec (p : SNNParams) (s : SNNState) (tid addr : Nat)
    (taken : Bool) (tok : BPHistory)
    (hg : tid < s.globalHistory.length)
    (hidx : tok.tableIndex = none ∨
      (tok.tableIndex = some (computeIndex p addr) ∧
        computeIndex p addr < s.table.length)) :
    (update p s tid addr taken tok true).globalHistory.getD tid [] =
        shiftIn tok.globalHistory taken ∧
      (tok.tableIndex = some (computeIndex p addr) →
        ((update p s tid addr taken tok true).table.getD (computeIndex p addr)
            (Neuron.init p)).localHistory = shiftIn tok.localHistory taken) ∧
      (tok.tableIndex = none → (update p s tid addr taken tok true).table = s.table) ∧
      ∀ j, weightsEq
        ((update p s tid addr taken tok true).table.getD j (Neuron.init p))
        (s.table.getD j (Neuron.init p)) := by
  refine ⟨?_, ?_, ?_, ?_⟩
  · rw [update_ghr_true, getD_listModify, if_pos ⟨rfl, hg⟩]
  · intro hsome
    rcases hidx with h0 | ⟨h1, h2⟩
    · rw [h0] at hsome; cases hsome
    · rw [update_table_true_some _ _ _ _ _ _ _ hsome, getD_listModify,
        if_pos ⟨rfl, h2⟩]
  · intro hnone; exact update_table_true_none _ _ _ _ _ _ hnone
  · intro j
    cases htok : tok.tableIndex with
    | none =>
      rw [update_table_true_none _ _ _ _ _ _ htok]
      exact ⟨rfl, rfl, rfl, rfl, rfl, rfl⟩
    | some i =>
      rw [update_table_true_some _ _ _ _ _ _ i htok, getD_listModify]
      split
      · exact ⟨rfl, rfl, rfl, rfl, rfl, rfl⟩
      · exact ⟨rfl, rfl, rfl, rfl, rfl, rfl⟩

theorem update_squashed_spec_witness :
    (0 < c7s1.globalHistory.length ∧
        (c7tok.tableIndex = none ∨
          (c7tok.tableIndex = some (computeIndex pC7 4) ∧
            computeIndex pC7 4 < c7s1.table.length))) ∧
      ((update pC7 c7s1 0 4 true c7tok true).globalHistory.getD 0 [] =
          shiftIn c7tok.globalHistory true ∧
        (c7tok.tableIndex = some (computeIndex pC7 4) →
          ((update pC7 c7s1 0 4 true c7tok true).table.getD (computeIndex pC7 4)
              (Neuron.init pC7)).localHistory = shiftIn c7tok.localHistory true) ∧
        (c7tok.tableIndex = none →
          (update pC7 c7s1 0 4 true c7tok true).table = c7s1.table) ∧
        ∀ j, weightsEq
          ((update pC7 c7s1 0 4 true c7tok true).table.getD j (Neuron.init pC7))
          (c7s1.table.getD j (Neuron.init pC7))) :=
  ⟨⟨by decide, by decide⟩,
   update_squashed_spec pC7 c7s1 0 4 true c7tok (by decide) (by decide)⟩

/-- C7 counterexample: a squashed `update` whose address hashes to index 0
while the token carries table index 1 leaves neuron 1's local history
untouched (the claim says it is restored-and-reshifted) and writes the
re-shifted snapshot into neuron 0 instead. -/
theorem update_squashed_wrong_neuron_cex :
    Reachable pC7 c7s2 ∧
      c7tok.tableIndex = some 1 ∧
      computeIndex pC7 0 = 0 ∧
      shiftIn c7tok.localHistory true = [true] ∧
      (c7s2.table.getD 1 (Neuron.init pC7)).localHistory = [false] ∧
      ¬((c7s2.table.getD 1 (Neuron.init pC7)).localHistory =
          shiftIn c7tok.localHistory true) ∧
      (c7s2.table.getD 0 (Neuron.init pC7)).localHistory = [true] := by
  refine ⟨?_, by decide, by decide, by decide, by decide, by decide, by decide⟩
  exact Reachable.update_ 0 0 true c7tok true
    (Reachable.lookup_ 0 4 Reachable.init)

/-- C4 (code bug, evaluated at the failing input): after two training calls
on `pC4` the reselection promotes window index `m = 1`, marks `segments[0]`
valid, copies `active_weights[1] = 2` into its weight and raises `theta` by
exactly 2 — but it stores position `1` (the window-RELATIVE index) instead
of the absolute history index `activeStart + m = 2` stated by the spec. -/
theorem segment_promotion_relative_ptr :
    (nC4.sparseSegs.getD 0 segDflt).valid = true ∧
      (nC4.sparseSegs.getD 0 segDflt).weight = 2 ∧
      nC4.theta = (Neuron.init pC4).theta + 2 ∧
      (Neuron.init pC4).activeStart = 1 ∧
      (nC4.sparseSegs.getD 0 segDflt).ptr = 1 ∧
      ¬((nC4.sparseSegs.getD 0 segDflt).ptr =
          (Neuron.init pC4).activeStart + 1) :=
  ⟨by decide, by decide, by decide, by decide, by decide, by decide⟩

/-- C5 (amended): provided the dense window is shorter than the sparse
region (`denseGlobalHistoryLen < sparseGHNSegs * sparseGHSegLen`), in every
reachable neuron state `activeStart` equals `denseGlobalHistoryLen` plus a
whole number of `sparseGHSegLen`-sized windows and lies within
`[denseGlobalHistoryLen, denseGlobalHistoryLen + sparseGHNSegs * sparseGHSegLen)`. -/
theorem activeStart_range (p : SNNParams) (s : SNNState)
    (hcfg : p.denseGlobalHistoryLen < p.sparseGHNSegs * p.sparseGHSegLen)
    (hr : Reachable p s) (j : Nat) :
    (∃ k, (s.table.getD j (Neuron.init p)).activeStart =
        p.denseGlobalHistoryLen + k * p.sparseGHSegLen) ∧
      p.denseGlobalHistoryLen ≤ (s.table.getD j (Neuron.init p)).activeStart ∧
      (s.table.getD j (Neuron.init p)).activeStart <
        p.denseGlobalHistoryLen + p.sparseGHNSegs * p.sparseGHSegLen := by
  have hseg : 0 < p.sparseGHSegLen := by
    rcases Nat.eq_zero_or_pos p.sparseGHSegLen with h0 | h0
    · rw [h0, Nat.mul_zero] at hcfg; omega
    · exact h0
  obtain ⟨⟨k, hk⟩, hdiv⟩ := (reach_geom p hcfg hr j).1
  refine ⟨⟨k, hk⟩, by rw [hk]; exact Nat.le_add_right _ _, ?_⟩
  have hlt := (Nat.div_lt_iff_lt_mul hseg).mp hdiv
  exact Nat.lt_of_lt_of_le hlt (Nat.le_add_left _ _)

theorem activeStart_range_witness :
    pGood.denseGlobalHistoryLen < pGood.sparseGHNSegs * pGood.sparseGHSegLen ∧
      ((∃ k, ((initState pGood).table.getD 0 (Neuron.init pGood)).activeStart =
          pGood.denseGlobalHistoryLen + k * pGood.sparseGHSegLen) ∧
        pGood.denseGlobalHistoryLen ≤
          ((initState pGood).table.getD 0 (Neuron.init pGood)).activeStart ∧
        ((initState pGood).table.getD 0 (Neuron.init pGood)).activeStart <
          pGood.denseGlobalHistoryLen +
            pGood.sparseGHNSegs * pGood.sparseGHSegLen) :=
  ⟨by decide,
   activeStart_range pGood (initState pGood) (by decide) Reachable.init 0⟩

/-- C5 counterexample: on `pBad` (dense window of 8 bits, 3 sparse windows
of 2 bits), after three committed branches the reachable cursor reads 14,
which is NOT inside the claimed range
`[denseGlobalHistoryLen, denseGlobalHistoryLen + nSegs*segLen) = [8, 14)`. -/
theorem activeStart_range_cex :
    Reachable pBad badS3 ∧
      (badS3.table.getD 0 (Neuron.init pBad)).activeStart = 14 ∧
      pBad.denseGlobalHistoryLen + pBad.sparseGHNSegs * pBad.sparseGHSegLen = 14 ∧
      ¬((badS3.table.getD 0 (Neuron.init pBad)).activeStart <
          pBad.denseGlobalHistoryLen +
            pBad.sparseGHNSegs * pBad.sparseGHSegLen) := by
  refine ⟨?_, by decide, by decide, by decide⟩
  exact Reachable.update_ 0 0 true
      (lookup pBad (badStep (badStep (initState pBad))) 0 0).2.1 false
    (Reachable.lookup_ 0 0
      (Reachable.update_ 0 0 true
          (lookup pBad (badStep (initState pBad)) 0 0).2.1 false
        (Reachable.lookup_ 0 0
          (Reachable.update_ 0 0 true
              (lookup pBad (initState pBad) 0 0).2.1 false
            (Reachable.lookup_ 0 0 Reachable.init)))))

/-- C6 (amended): provided `tableSize > 0` and
`denseGlobalHistoryLen < sparseGHNSegs * sparseGHSegLen`, every access made
through the public surface is in range in every reachable state: the table
index is below `tableSize`, the reselection's segment index is below
`sparseGHNSegs`, and the history bits read at `activeStart + i` and at the
stored segment positions lie inside the global history register. -/
theorem accesses_in_range (p : SNNParams) (s : SNNState)
    (htab : 0 < p.tableSize)
    (hcfg : p.denseGlobalHistoryLen < p.sparseGHNSegs * p.sparseGHSegLen)
    (hr : Reachable p s) :
    (∀ addr, computeIndex p addr < p.tableSize) ∧
      ∀ j, reselectSegIdx p (s.table.getD j (Neuron.init p)) < p.sparseGHNSegs ∧
        (∀ i, i < p.sparseGHSegLen →
          (s.table.getD j (Neuron.init p)).activeStart + i <
            p.denseGlobalHistoryLen + p.sparseGHNSegs * p.sparseGHSegLen) ∧
        ∀ i, ((s.table.getD j (Neuron.init p)).sparseSegs.getD i segDflt).ptr <
          p.denseGlobalHistoryLen + p.sparseGHNSegs * p.sparseGHSegLen := by
  refine ⟨fun addr => Nat.mod_lt _ htab, fun j => ?_⟩
  obtain ⟨hAS, hPtr⟩ := reach_geom p hcfg hr j
  exact ⟨hAS.2, ASInv_add_lt p hcfg _ hAS, hPtr⟩

theorem accesses_in_range_witness :
    (0 < pGood.tableSize ∧
        pGood.denseGlobalHistoryLen <
          pGood.sparseGHNSegs * pGood.sparseGHSegLen) ∧
      ((∀ addr, computeIndex pGood addr < pGood.tableSize) ∧
        ∀ j, reselectSegIdx pGood
              ((initState pGood).table.getD j (Neuron.init pGood)) <
            pGood.sparseGHNSegs ∧
          (∀ i, i < pGood.sparseGHSegLen →
            ((initState pGood).table.getD j (Neuron.init pGood)).activeStart + i <
              pGood.denseGlobalHistoryLen +
                pGood.sparseGHNSegs * pGood.sparseGHSegLen) ∧
          ∀ i, (((initState pGood).table.getD j
                (Neuron.init pGood)).sparseSegs.getD i segDflt).ptr <
            pGood.denseGlobalHistoryLen +
              pGood.sparseGHNSegs * pGood.sparseGHSegLen) :=
  ⟨⟨by decide, by decide⟩,
   accesses_in_range pGood (initState pGood) (by decide) (by decide)
     Reachable.init⟩

/-- C6 counterexample: on `pBad`, the very first committed branch reaches a
state whose neuron triggers reselection on the next training call and the
segment index it accesses is `activeStart / segLen = 4 ≥ nSegs = 3` — the
claimed in-range property fails for this configuration (the skip rule does
not fire, so the reselection block really executes). -/
theorem accesses_in_range_cex :
    Reachable pBad badS1 ∧
      computeIndex pBad 0 = 0 ∧
      fitReselects pBad (badS1.table.getD 0 (Neuron.init pBad)) = true ∧
      ¬(true = badTok1.predTaken ∧
          ((badTok1.predictionValue.natAbs : Int) >
            (badS1.table.getD 0 (Neuron.init pBad)).theta)) ∧
      reselectSegIdx pBad (badS1.table.getD 0 (Neuron.init pBad)) = 4 ∧
      ¬(reselectSegIdx pBad (badS1.table.getD 0 (Neuron.init pBad)) <
          pBad.sparseGHNSegs) := by
  refine ⟨?_, by decide, by decide, by decide, by decide, by decide⟩
  exact Reachable.lookup_ 0 0 Reachable.init

/-- C10: `btbUpdate` overwrites bit 0 of the thread's global history and bit
0 of the indexed neuron's local history with `false`, shifts nothing (all
other bits and both lengths are unchanged), and changes no weight or other
neuron state. -/
theorem btbUpdate_effect (p : SNNParams) (s : SNNState) (tid addr : Nat)
    (hg : tid < s.globalHistory.length)
    (hgl : 0 < (s.globalHistory.getD tid []).length)
    (ht : computeIndex p addr < s.table.length)
    (hl : 0 < ((s.table.getD (computeIndex p addr)
        (Neuron.init p)).localHistory).length) :
    ((btbUpdate p s tid addr).globalHistory.getD tid []).getD 0 true = false ∧
      ((btbUpdate p s tid addr).globalHistory.getD tid []).length =
        (s.globalHistory.getD tid []).length ∧
      (∀ i, i ≠ 0 →
        ((btbUpdate p s tid addr).globalHistory.getD tid []).getD i false =
          (s.globalHistory.getD tid []).getD i false) ∧
      (∀ t, t ≠ tid →
        (btbUpdate p s tid addr).globalHistory.getD t [] =
          s.globalHistory.getD t []) ∧
      (((btbUpdate p s tid addr).table.getD (computeIndex p addr)
          (Neuron.init p)).localHistory).getD 0 true = false ∧
      (((btbUpdate p s tid addr).table.getD (computeIndex p addr)
          (Neuron.init p)).localHistory).length =
        ((s.table.getD (computeIndex p addr) (Neuron.init p)).localHistory).length ∧
      (∀ i, i ≠ 0 →
        (((btbUpdate p s tid addr).table.getD (computeIndex p addr)
            (Neuron.init p)).localHistory).getD i false =
          ((s.table.getD (computeIndex p addr)
            (Neuron.init p)).localHistory).getD i false) ∧
      weightsEq
        ((btbUpdate p s tid addr).table.getD (computeIndex p addr) (Neuron.init p))
        (s.table.getD (computeIndex p addr) (Neuron.init p)) ∧
      ∀ j, j ≠ computeIndex p addr →
        (btbUpdate p s tid addr).table.getD j (Neuron.init p) =
          s.table.getD j (Neuron.init p) := by
  have hbg : (btbUpdate p s tid addr).globalHistory =
      listModify s.globalHistory tid (fun g => listModify g 0 (fun _ => false)) := rfl
  refine ⟨?_, ?_, ?_, ?_, ?_, ?_, ?_, ?_, ?_⟩
  · rw [hbg, getD_listModify, if_pos ⟨rfl, hg⟩, getD_listModify,
      if_pos ⟨rfl, hgl⟩]
  · rw [hbg, getD_listModify, if_pos ⟨rfl, hg⟩, length_listModify]
  · intro i hi
    rw [hbg, getD_listModify, if_pos ⟨rfl, hg⟩, getD_listModify,
      if_neg (by rintro ⟨h0, _⟩; exact hi h0.symm)]
  · intro t htne
    rw [hbg, getD_listModify, if_neg (by rintro ⟨h0, _⟩; exact htne h0.symm)]
  · rw [btb_table, getD_listModify, if_pos ⟨rfl, ht⟩]
    show (listModify _ 0 (fun _ => false)).getD 0 true = false
    rw [getD_listModify, if_pos ⟨rfl, hl⟩]
  · rw [btb_table, getD_listModify, if_pos ⟨rfl, ht⟩]
    show (listModify _ 0 (fun _ => false)).length = _
    rw [length_listModify]
  · intro i hi
    rw [btb_table, getD_listModify, if_pos ⟨rfl, ht⟩]
    show (listModify _ 0 (fun _ => false)).getD i false = _
    rw [getD_listModify, if_neg (by rintro ⟨h0, _⟩; exact hi h0.symm)]
  · rw [btb_table, getD_listModify, if_pos ⟨rfl, ht⟩]
    exact ⟨rfl, rfl, rfl, rfl, rfl, rfl⟩
  · intro j hj
    rw [btb_table, getD_listModify,
      if_neg (by rintro ⟨h0, _⟩; exact hj h0.symm)]

theorem btbUpdate_effect_witness :
    (0 < (initState pGood).globalHistory.length ∧
        0 < ((initState pGood).globalHistory.getD 0 []).length ∧
        computeIndex pGood 0 < (initState pGood).table.length ∧
        0 < (((initState pGood).table.getD (computeIndex pGood 0)
            (Neuron.init pGood)).localHistory).length) ∧
      (((btbUpdate pGood (initState pGood) 0 0).globalHistory.getD 0 []).getD 0
          true = false ∧
        ((btbUpdate pGood (initState pGood) 0 0).globalHistory.getD 0 []).length =
          ((initState pGood).globalHistory.getD 0 []).length ∧
        (∀ i, i ≠ 0 →
          ((btbUpdate pGood (initState pGood) 0 0).globalHistory.getD 0 []).getD i
              false =
            ((initState pGood).globalHistory.getD 0 []).getD i false) ∧
        (∀ t, t ≠ 0 →
          (btbUpdate pGood (initState pGood) 0 0).globalHistory.getD t [] =
            (initState pGood).globalHistory.getD t []) ∧
        (((btbUpdate pGood (initState pGood) 0 0).table.getD (computeIndex pGood 0)
            (Neuron.init pGood)).localHistory).getD 0 true = false ∧
        (((btbUpdate pGood (initState pGood) 0 0).table.getD (computeIndex pGood 0)
            (Neuron.init pGood)).localHistory).length =
          (((initState pGood).table.getD (computeIndex pGood 0)
            (Neuron.init pGood)).localHistory).length ∧
        (∀ i, i ≠ 0 →
          (((btbUpdate pGood (initState pGood) 0 0).table.getD
              (computeIndex pGood 0) (Neuron.init pGood)).localHistory).getD i
              false =
            (((initState pGood).table.getD (computeIndex pGood 0)
              (Neuron.init pGood)).localHistory).getD i false) ∧
        weightsEq
          ((btbUpdate pGood (initState pGood) 0 0).table.getD
            (computeIndex pGood 0) (Neuron.init pGood))
          ((initState pGood).table.getD (computeIndex pGood 0)
            (Neuron.init pGood)) ∧
        ∀ j, j ≠ computeIndex pGood 0 →
          (btbUpdate pGood (initState pGood) 0 0).table.getD j
              (Neuron.init pGood) =
            (initState pGood).table.getD j (Neuron.init pGood)) :=
  ⟨⟨by decide, by decide, by decide, by decide⟩,
   btbUpdate_effect pGood (initState pGood) 0 0 (by decide) (by decide)
     (by decide) (by decide)⟩

end SNN
